import Mathlib

/-!
Shallow embedding of the pixel-art post-processing pipeline of the
pixegen repository (the pixel processor: downscaling, OKLAB palette
quantization, Bayer dithering, outline generation, orphan cleanup and
the orchestrating pipeline), together with proofs of the specification
claims about it.

Pixels are 8-bit RGBA quadruples; an image is a width, a height and a
row-major pixel list (the interleaved `Uint8ClampedArray` of the source,
grouped in fours).  The floating-point OKLAB color math of the source is
embedded over the real numbers; all integer-valued parts of the source
are embedded computably over ℕ/ℤ.
-/

/-- One RGBA pixel (each channel 0-255 in the source buffers). -/
structure Pixel where
  r : ℕ
  g : ℕ
  b : ℕ
  a : ℕ
deriving DecidableEq, Repr

/-- A palette entry: an RGB triple without alpha. -/
structure Color where
  r : ℕ
  g : ℕ
  b : ℕ
deriving DecidableEq, Repr

/-- An `ImageData` value: width, height and a row-major pixel list. -/
structure ImageData where
  width : ℕ
  height : ℕ
  data : List Pixel
deriving DecidableEq, Repr

/-- The all-zero pixel: the content of a freshly allocated buffer. -/
def px0 : Pixel := ⟨0, 0, 0, 0⟩

/-- Pixel at column `x`, row `y` (the source reads `data[(y*width+x)*4]`). -/
def getPx (img : ImageData) (x y : ℕ) : Pixel :=
  img.data.getD (y * img.width + x) px0

/-- The RGB part of a pixel, for palette-membership statements. -/
def Pixel.rgb (p : Pixel) : Color := ⟨p.r, p.g, p.b⟩

/-- A raster is well formed when the buffer length matches the declared
dimensions (`pixels.length == width*height*4` in the spec, §3). -/
abbrev wellFormed (img : ImageData) : Prop :=
  img.data.length = img.width * img.height

/-- The nearest-entry scan of `quantizeOklab` / `quantizeOklabBayer` (and of
the legacy reducer model): walk the distance list keeping the strictly best
index and distance seen so far; `⊤` plays the part of the initial
`Infinity`.  `s = (bestIdx, bestDist)` and `j` is the index of the head. -/
def scanBestP {α : Type} [LT α] [DecidableRel ((· < ·) : α → α → Prop)] :
    List α → ℕ → ℕ × WithTop α → ℕ × WithTop α
  | [], _, s => s
  | d :: rest, j, s =>
      if (d : WithTop α) < s.2 then scanBestP rest (j + 1) (j, (d : WithTop α))
      else scanBestP rest (j + 1) s

/-- `bestIdx` after the whole scan, starting from index 0 and `Infinity`. -/
def bestIndex {α : Type} [LT α] [DecidableRel ((· < ·) : α → α → Prop)]
    (dists : List α) : ℕ :=
  (scanBestP dists 0 (0, ⊤)).1

/-- sRGB channel (0-255) to linear light: the standard piecewise transfer
function of `srgbToLinear` in the source. -/
noncomputable def srgbToLinear (c : ℕ) : ℝ :=
  let x : ℝ := c / 255
  if x ≤ 0.04045 then x / 12.92 else ((x + 0.055) / 1.055) ^ (2.4 : ℝ)

/-- Cube root on ℝ, modelling `Math.cbrt` (sign-preserving). -/
noncomputable def cbrtR (x : ℝ) : ℝ :=
  if x < 0 then -((-x) ^ ((1 : ℝ) / 3)) else x ^ ((1 : ℝ) / 3)

/-- An OKLAB triple. -/
structure Lab where
  L : ℝ
  a : ℝ
  b : ℝ

/-- sRGB to OKLAB, with the two fixed matrices of the source. -/
noncomputable def srgbToOklab (r g b : ℕ) : Lab :=
  let lr := srgbToLinear r
  let lg := srgbToLinear g
  let lb := srgbToLinear b
  let lQ := cbrtR (0.4122214708 * lr + 0.5363325363 * lg + 0.0514459929 * lb)
  let mQ := cbrtR (0.2119034982 * lr + 0.6806995451 * lg + 0.1073969566 * lb)
  let sQ := cbrtR (0.0883024619 * lr + 0.2817188376 * lg + 0.6299787005 * lb)
  ⟨0.2104542553 * lQ + 0.7936177850 * mQ - 0.0040720468 * sQ,
   1.9779984951 * lQ - 2.4285922050 * mQ + 0.4505937099 * sQ,
   0.0259040371 * lQ + 0.7827717662 * mQ - 0.8086757660 * sQ⟩

/-- Squared Euclidean distance in OKLAB (`oklabDistSq`). -/
noncomputable def oklabDistSq (lab1 lab2 : Lab) : ℝ :=
  (lab1.L - lab2.L) * (lab1.L - lab2.L) +
    (lab1.a - lab2.a) * (lab1.a - lab2.a) +
    (lab1.b - lab2.b) * (lab1.b - lab2.b)

/-- Palette mapped to OKLAB (`getPaletteOklab`); the source caches this per
palette object and the cached value is a pure function of the palette. -/
noncomputable def getPaletteOklab (palette : List Color) : List Lab :=
  palette.map fun c => srgbToOklab c.r c.g c.b

/-- Distance from a pixel to one palette entry, in OKLAB. -/
noncomputable def pixDist (p : Pixel) (c : Color) : ℝ :=
  oklabDistSq (srgbToOklab p.r p.g p.b) (srgbToOklab c.r c.g c.b)

/-- One pixel of `quantizeOklab`: transparency short-circuit, then the
nearest-palette-entry scan, writing the winning entry with original alpha. -/
noncomputable def quantizeOklabPixel (palette : List Color) (p : Pixel) : Pixel :=
  if p.a < 10 then ⟨0, 0, 0, 0⟩
  else
    let pixelOklab := srgbToOklab p.r p.g p.b
    let bestIdx := bestIndex ((getPaletteOklab palette).map fun lab => oklabDistSq pixelOklab lab)
    let c := palette.getD bestIdx ⟨0, 0, 0⟩
    ⟨c.r, c.g, c.b, p.a⟩

/-- OKLAB nearest-color quantization (`quantizeOklab`). -/
noncomputable def quantizeOklab (img : ImageData) (palette : List Color) : ImageData :=
  ⟨img.width, img.height, img.data.map (quantizeOklabPixel palette)⟩

/-- The 4×4 Bayer threshold matrix of the source, entries `k/16 - 0.5`. -/
noncomputable def bayer4 : List (List ℝ) :=
  [[0 / 16 - 0.5, 8 / 16 - 0.5, 2 / 16 - 0.5, 10 / 16 - 0.5],
   [12 / 16 - 0.5, 4 / 16 - 0.5, 14 / 16 - 0.5, 6 / 16 - 0.5],
   [3 / 16 - 0.5, 11 / 16 - 0.5, 1 / 16 - 0.5, 9 / 16 - 0.5],
   [15 / 16 - 0.5, 7 / 16 - 0.5, 13 / 16 - 0.5, 5 / 16 - 0.5]]

/-- One pixel of `quantizeOklabBayer` at position `(x, y)`: the L channel is
perturbed by `bayer4[y % 4][x % 4] * strength` before the nearest scan. -/
noncomputable def quantizeOklabBayerPixel (palette : List Color) (strength : ℝ)
    (x y : ℕ) (p : Pixel) : Pixel :=
  if p.a < 10 then ⟨0, 0, 0, 0⟩
  else
    let pixelOklab := srgbToOklab p.r p.g p.b
    let threshold := ((bayer4.getD (y % 4) []).getD (x % 4) 0) * strength
    let dithered : Lab := ⟨pixelOklab.L + threshold, pixelOklab.a, pixelOklab.b⟩
    let bestIdx := bestIndex ((getPaletteOklab palette).map fun lab => oklabDistSq dithered lab)
    let c := palette.getD bestIdx ⟨0, 0, 0⟩
    ⟨c.r, c.g, c.b, p.a⟩

/-- Bayer ordered dithering in OKLAB space (`quantizeOklabBayer`); the
source's default `strength` argument is 0.3, supplied at the call sites. -/
noncomputable def quantizeOklabBayer (img : ImageData) (palette : List Color)
    (strength : ℝ) : ImageData :=
  ⟨img.width, img.height,
    (List.range (img.width * img.height)).map fun i =>
      quantizeOklabBayerPixel palette strength (i % img.width) (i / img.width)
        (getPx img (i % img.width) (i / img.width))⟩

/-- Squared sRGB distance, for the legacy reducer model. -/
def srgbDistSq (p : Pixel) (c : Color) : ℤ :=
  ((p.r : ℤ) - c.r) ^ 2 + ((p.g : ℤ) - c.g) ^ 2 + ((p.b : ℤ) - c.b) ^ 2

/-- Modelled from the spec: one pixel of the legacy `quantizePalette`, which
delegates to the external RgbQuant library whose code is not part of this
repository.  Per §4.3 of the spec, near-transparent pixels (alpha < 10) are
short-circuited to transparent black without a palette lookup, and every
other pixel is mapped to the nearest palette color, operating in sRGB. -/
def quantizePalettePixel (palette : List Color) (p : Pixel) : Pixel :=
  if p.a < 10 then ⟨0, 0, 0, 0⟩
  else
    let c := palette.getD (bestIndex (palette.map (srgbDistSq p))) ⟨0, 0, 0⟩
    ⟨c.r, c.g, c.b, p.a⟩

/-- Modelled from the spec: the classic RgbQuant-based `quantizePalette`
(legacy-histogram mode).  The selectable error-diffusion kernel is modelled
in its `null` (no dithering) setting, under which the reducer is the plain
nearest-color map; the `dithering` option is therefore unused here. -/
def quantizePalette (img : ImageData) (_dithering : Option String)
    (palette : List Color) : ImageData :=
  ⟨img.width, img.height, img.data.map (quantizePalettePixel palette)⟩

/-- Modelled from the spec: `reduceImageTo15Bit` lives in `palettes.js`,
which is not among the provided sources.  Per §4.3, each channel is
independently rounded to the nearest representable value at 5-bit depth:
`round(round(c*31/255) * 255/31)`, written with exact natural-number
half-up rounding (`round(n/d) = (2n+d)/(2d)`); alpha is untouched. -/
def reduce5 (c : ℕ) : ℕ :=
  let v := (62 * c + 255) / 510
  (510 * v + 31) / 62

/-- `quantizeBitReduce`: copy the buffer and reduce it to 15-bit color,
leaving alpha unchanged. -/
def quantizeBitReduce (img : ImageData) : ImageData :=
  ⟨img.width, img.height,
    img.data.map fun p => ⟨reduce5 p.r, reduce5 p.g, reduce5 p.b, p.a⟩⟩

/-- The source region of output cell `(x, y)`:
`[floor(x*cellW), floor((x+1)*cellW)) × [floor(y*cellH), floor((y+1)*cellH))`
with `cellW = srcW/targetW` real-valued; over ℕ, `floor(x * (srcW/targetW))`
is exactly `x * srcW / targetW`.  Pixels are listed row-major, matching the
scan order of the source loops. -/
def cellPixels (img : ImageData) (tw th x y : ℕ) : List Pixel :=
  ((List.range ((y + 1) * img.height / th - y * img.height / th)).map fun dy =>
    (List.range ((x + 1) * img.width / tw - x * img.width / tw)).map fun dx =>
      getPx img (x * img.width / tw + dx) (y * img.height / th + dy)).flatten

/-- 5-bit bin of a pixel: the source's map key `r>>3, g>>3, b>>3, a>>3`. -/
def binKey (p : Pixel) : ℕ × ℕ × ℕ × ℕ := (p.r / 8, p.g / 8, p.b / 8, p.a / 8)

/-- The `colorCounts` scan of `downscaleMode` over one cell: `cnt` is the
occurrence map, `bestCount` / `best` the running winner; a pixel whose bin
count strictly exceeds `bestCount` becomes the new `best` (its raw RGBA). -/
def modeScan : List Pixel → ((ℕ × ℕ × ℕ × ℕ) → ℕ) → ℕ → Pixel → Pixel
  | [], _, _, best => best
  | p :: rest, cnt, bestCount, best =>
    if bestCount < cnt (binKey p) + 1 then
      modeScan rest (fun k => if k = binKey p then cnt (binKey p) + 1 else cnt k)
        (cnt (binKey p) + 1) p
    else
      modeScan rest (fun k => if k = binKey p then cnt (binKey p) + 1 else cnt k)
        bestCount best

/-- Winner of one cell (`bestR`,`bestG`,`bestB`,`bestA` all start at 0). -/
def modeBest (cell : List Pixel) : Pixel := modeScan cell (fun _ => 0) 0 px0

/-- Mode-based downscale (`downscaleMode`). -/
def downscaleMode (img : ImageData) (tw th : ℕ) : ImageData :=
  ⟨tw, th, (List.range (tw * th)).map fun i =>
    modeBest (cellPixels img tw th (i % tw) (i / tw))⟩

/-- `Math.round(sum/count)` over ℕ: `floor(sum/count + 1/2) = (2*sum+count)/(2*count)`.
For `count = 0` the source computes `Math.round(0/0) = NaN`, which
`Uint8ClampedArray` stores as 0; natural division by zero gives 0 as well. -/
def avgChannel (sum count : ℕ) : ℕ := (2 * sum + count) / (2 * count)

/-- Average-based downscale (`downscaleAverage`). -/
def downscaleAverage (img : ImageData) (tw th : ℕ) : ImageData :=
  ⟨tw, th, (List.range (tw * th)).map fun i =>
    let cell := cellPixels img tw th (i % tw) (i / tw)
    let n := cell.length
    ⟨avgChannel (cell.map Pixel.r).sum n, avgChannel (cell.map Pixel.g).sum n,
     avgChannel (cell.map Pixel.b).sum n, avgChannel (cell.map Pixel.a).sum n⟩⟩

/-- `Math.round` of a nonnegative rational: `floor(q + 1/2)`. -/
def roundQ (q : ℚ) : ℕ := (⌊q + 1 / 2⌋).toNat

/-- One darkened channel of `generateOutlines`:
`Math.round(c * (1 - darkenFactor))`. -/
def darken (c : ℕ) (f : ℚ) : ℕ := roundQ ((c : ℚ) * (1 - f))

/-- Whether `(x, y)` is on the sprite edge: some 4-neighbour lies outside the
raster or is near-transparent (the neighbour loop of `generateOutlines`). -/
def isEdge (img : ImageData) (x y : ℕ) : Bool :=
  [((x : ℤ) - 1, (y : ℤ)), ((x : ℤ) + 1, (y : ℤ)),
   ((x : ℤ), (y : ℤ) - 1), ((x : ℤ), (y : ℤ) + 1)].any fun nb =>
    decide (nb.1 < 0) || decide ((img.width : ℤ) ≤ nb.1) ||
    decide (nb.2 < 0) || decide ((img.height : ℤ) ≤ nb.2) ||
    decide ((getPx img nb.1.toNat nb.2.toNat).a < 10)

/-- One pixel of `generateOutlines`: near-transparent pixels are copied;
edge pixels get each RGB channel darkened; all other pixels are copied
unchanged.  Alpha is never written. -/
def outlinePixel (img : ImageData) (darkenFactor : ℚ) (x y : ℕ) : Pixel :=
  if (getPx img x y).a < 10 then getPx img x y
  else if isEdge img x y then
    ⟨darken (getPx img x y).r darkenFactor, darken (getPx img x y).g darkenFactor,
     darken (getPx img x y).b darkenFactor, (getPx img x y).a⟩
  else getPx img x y

/-- Automatic 1px dark outlines (`generateOutlines`); the source's default
`darkenFactor` argument is 0.35, supplied at the call sites. -/
def generateOutlines (img : ImageData) (darkenFactor : ℚ) : ImageData :=
  ⟨img.width, img.height, (List.range (img.width * img.height)).map fun i =>
    outlinePixel img darkenFactor (i % img.width) (i / img.width)⟩

/-- The eight neighbour offsets `(dx, dy)` in the scan order of the source
(`dy` outer from -1 to 1, `dx` inner, centre skipped). -/
def nbrOffsets : List (ℤ × ℤ) :=
  [(-1, -1), (0, -1), (1, -1), (-1, 0), (1, 0), (-1, 1), (0, 1), (1, 1)]

/-- The eight neighbours of an interior pixel, in scan order. -/
def nbrs (img : ImageData) (x y : ℕ) : List Pixel :=
  nbrOffsets.map fun od => getPx img ((x : ℤ) + od.1).toNat ((y : ℤ) + od.2).toNat

/-- Number of 8-neighbours whose summed absolute channel difference from the
centre is below `threshold * 3` (transparent neighbours included, exactly as
in the source's `sameCount` loop). -/
def matchCount (img : ImageData) (threshold x y : ℕ) : ℕ :=
  let p := getPx img x y
  (nbrs img x y).countP fun q =>
    decide (((q.r : ℤ) - p.r).natAbs + ((q.g : ℤ) - p.g).natAbs +
      ((q.b : ℤ) - p.b).natAbs < threshold * 3)

/-- The `neighborColors` scan of `cleanupOrphans`: most frequent opaque
neighbour color (transparent neighbours skipped), ties kept by the first to
reach the count, starting from the pixel's own RGB as `bestColor`. -/
def orphanScan : List Pixel → (Color → ℕ) → ℕ → Color → Color
  | [], _, _, best => best
  | q :: rest, cnt, maxC, best =>
    if q.a < 10 then orphanScan rest cnt maxC best
    else
      let c := cnt q.rgb + 1
      let cnt2 := fun k => if k = q.rgb then c else cnt k
      if maxC < c then orphanScan rest cnt2 c q.rgb else orphanScan rest cnt2 maxC best

/-- One pixel of `cleanupOrphans`: only interior opaque pixels with no
color-matching neighbour are rewritten, to the winner of `orphanScan`. -/
def cleanupPixel (img : ImageData) (threshold x y : ℕ) : Pixel :=
  if x = 0 ∨ y = 0 ∨ img.width ≤ x + 1 ∨ img.height ≤ y + 1 then getPx img x y
  else if (getPx img x y).a < 10 then getPx img x y
  else if matchCount img threshold x y = 0 then
    ⟨(orphanScan (nbrs img x y) (fun _ => 0) 0 (getPx img x y).rgb).r,
     (orphanScan (nbrs img x y) (fun _ => 0) 0 (getPx img x y).rgb).g,
     (orphanScan (nbrs img x y) (fun _ => 0) 0 (getPx img x y).rgb).b,
     (getPx img x y).a⟩
  else getPx img x y

/-- Orphan pixel cleanup (`cleanupOrphans`); the source's default
`threshold` argument is 3, supplied at the call sites. -/
def cleanupOrphans (img : ImageData) (threshold : ℕ) : ImageData :=
  ⟨img.width, img.height, (List.range (img.width * img.height)).map fun i =>
    cleanupPixel img threshold (i % img.width) (i / img.width)⟩

/-- A sprite-size entry of a console profile. -/
structure SpriteSize where
  w : ℕ
  h : ℕ
deriving DecidableEq, Repr

/-- Modelled from the spec: a console profile from `palettes.js` (external
configuration, absent from the provided sources): a display name, the fixed
palette, the quantize-mode tag, the sprite-size table and the default size
key. -/
structure ConsoleConfig where
  name : String
  palette : List Color
  quantizeMode : String
  spriteSizes : String → Option SpriteSize
  defaultSize : String

/-- Pipeline options (spec §3 `PipelineOptions`); `ditherStrength` is listed
by the spec but never read by the pipeline code. -/
structure PipelineOptions where
  consoleId : String
  spriteSize : Option String
  dithering : Option String
  pipeline : String
  outlines : Bool
  cleanup : Bool
  ditherStrength : ℝ

/-- The result record of `processImage`. -/
structure ProcessResult where
  pixelData : ImageData
  spriteW : ℕ
  spriteH : ℕ
deriving DecidableEq

/-- `processImage`, from the decoded source raster on (the
`OffscreenCanvas` draw of the source merely decodes the already-loaded
`HTMLImageElement` into the raster this function starts from); `consoles`
stands for the `CONSOLES` table imported from the external `palettes.js`.
The `.error` cases are the `throw` sites of the source, in source order. -/
noncomputable def processImage (consoles : String → Option ConsoleConfig)
    (sourceData : ImageData) (o : PipelineOptions) : Except String ProcessResult :=
  match consoles o.consoleId with
  | none => .error ("Unknown console: " ++ o.consoleId)
  | some consoleConfig =>
    let effectiveSize := o.spriteSize.getD consoleConfig.defaultSize
    match consoleConfig.spriteSizes effectiveSize with
    | none => .error ("Unknown sprite size " ++ effectiveSize ++ " for " ++ consoleConfig.name)
    | some size =>
      if sourceData.width = 0 ∨ sourceData.height = 0 then
        .error "Image has no dimensions. It may not be fully loaded."
      else
        let downscaled :=
          if o.pipeline = "enhanced" then downscaleMode sourceData size.w size.h
          else downscaleAverage sourceData size.w size.h
        let quantized :=
          if consoleConfig.quantizeMode = "bitreduce" then quantizeBitReduce downscaled
          else if o.pipeline = "enhanced" then
            if o.dithering = some "bayer" then
              quantizeOklabBayer downscaled consoleConfig.palette 0.3
            else quantizeOklab downscaled consoleConfig.palette
          else quantizePalette downscaled o.dithering consoleConfig.palette
        let cleaned :=
          if o.pipeline = "enhanced" ∧ o.cleanup then cleanupOrphans quantized 3 else quantized
        let outlined :=
          if o.pipeline = "enhanced" ∧ o.outlines then generateOutlines cleaned (35 / 100)
          else cleaned
        .ok ⟨outlined, size.w, size.h⟩

/-- Extract the `i`-th frame region of a sheet (the region `drawImage` copy
of the source): columns `[x0, x0 + fw)`, full height, row-major. -/
def extractFrame (img : ImageData) (x0 fw : ℕ) : ImageData :=
  ⟨fw, img.height, (List.range (fw * img.height)).map fun i =>
    getPx img (x0 + i % fw) (i / fw)⟩

/-- `processSpriteSheet`: slice the sheet into `frameCount` equal-width
columns (`frameW = floor(imgW / frameCount)`) and run each frame through the
same downscale / quantize / post-process steps as `processImage`.  The
shared-palette step of the source only warms the OKLAB cache, which is a
pure function of the palette here. -/
noncomputable def processSpriteSheet (consoles : String → Option ConsoleConfig)
    (img : ImageData) (frameCount : ℕ) (o : PipelineOptions) :
    Except String (List ProcessResult) :=
  match consoles o.consoleId with
  | none => .error ("Unknown console: " ++ o.consoleId)
  | some consoleConfig =>
    let effectiveSize := o.spriteSize.getD consoleConfig.defaultSize
    match consoleConfig.spriteSizes effectiveSize with
    | none => .error ("Unknown sprite size " ++ effectiveSize ++ " for " ++ consoleConfig.name)
    | some size =>
      if img.width = 0 ∨ img.height = 0 then
        .error "Image has no dimensions. It may not be fully loaded."
      else
        let frameW := img.width / frameCount
        .ok ((List.range frameCount).map fun i =>
          let sourceData := extractFrame img (i * frameW) frameW
          let downscaled :=
            if o.pipeline = "enhanced" then downscaleMode sourceData size.w size.h
            else downscaleAverage sourceData size.w size.h
          let quantized :=
            if consoleConfig.quantizeMode = "bitreduce" then quantizeBitReduce downscaled
            else if o.pipeline = "enhanced" then
              if o.dithering = some "bayer" then
                quantizeOklabBayer downscaled consoleConfig.palette 0.3
              else quantizeOklab downscaled consoleConfig.palette
            else quantizePalette downscaled o.dithering consoleConfig.palette
          let cleaned :=
            if o.pipeline = "enhanced" ∧ o.cleanup then cleanupOrphans quantized 3 else quantized
          let outlined :=
            if o.pipeline = "enhanced" ∧ o.outlines then generateOutlines cleaned (35 / 100)
            else cleaned
          ⟨outlined, size.w, size.h⟩)

/-- The enhanced pipeline's post-processing stage, for stating pipeline
results: optional orphan cleanup (threshold 3) then optional outline
generation (darken factor 0.35), exactly as wired in `processImage`. -/
def enhancedPost (pd : ImageData) (cleanup outlines : Bool) : ImageData :=
  if outlines then generateOutlines (if cleanup then cleanupOrphans pd 3 else pd) (35 / 100)
  else if cleanup then cleanupOrphans pd 3 else pd

/-- 2×2 fixture for the mode tie-break: black, red, red, black in scan order. -/
def tieImg : ImageData :=
  ⟨2, 2, [⟨0, 0, 0, 255⟩, ⟨255, 0, 0, 255⟩, ⟨255, 0, 0, 255⟩, ⟨0, 0, 0, 255⟩]⟩

/-- 1×1 opaque grey fixture. -/
def oneImg : ImageData := ⟨1, 1, [⟨7, 7, 7, 255⟩]⟩

/-- 1×1 near-transparent fixture (alpha 5 < 10). -/
def lowAlphaImg : ImageData := ⟨1, 1, [⟨200, 100, 50, 5⟩]⟩

/-- 3×3 fixture: opaque centre, all eight neighbours fully transparent. -/
def orphanImg : ImageData :=
  ⟨3, 3, [px0, px0, px0, px0, ⟨100, 100, 100, 255⟩, px0, px0, px0, px0]⟩

/-- A two-entry red/blue palette. -/
def palRB : List Color := [⟨255, 0, 0⟩, ⟨0, 0, 255⟩]

/-- A palette whose two entries are the same color, so every pixel is exactly
equidistant from both entries in OKLAB. -/
def palDup : List Color := [⟨7, 7, 7⟩, ⟨7, 7, 7⟩]

/-- A fixed-palette console profile for concrete pipeline runs. -/
def testConsole : ConsoleConfig :=
  ⟨"TestConsole", palRB, "palette", (fun s => if s = "8" then some ⟨1, 1⟩ else none), "8"⟩

/-- A one-console `CONSOLES` table. -/
def testConsoles : String → Option ConsoleConfig :=
  fun s => if s = "test" then some testConsole else none

/-- Baseline options for concrete pipeline runs. -/
def optsEnhanced : PipelineOptions :=
  ⟨"test", some "8", none, "enhanced", true, true, 0⟩

/-- Options naming a pipeline strategy the implementation does not provide. -/
def optsBogus : PipelineOptions :=
  ⟨"test", some "8", none, "bogus-strategy", true, true, 0⟩

/-- The classic-pipeline variant of `optsBogus`. -/
def optsClassic : PipelineOptions :=
  ⟨"test", some "8", none, "classic", true, true, 0⟩

/-- Options for the enhanced pipeline with Bayer dithering. -/
def optsBayer : PipelineOptions :=
  ⟨"test", some "8", some "bayer", "enhanced", true, true, 0⟩

/-- Number of pixels of `l` falling in 5-bit bin `k`. -/
def countKey (l : List Pixel) (k : ℕ × ℕ × ℕ × ℕ) : ℕ :=
  l.countP fun p => decide (binKey p = k)

/-- Maximum of `f` over a pixel list (0 when the list is empty). -/
def maxOver (l : List Pixel) (f : Pixel → ℕ) : ℕ := (l.map f).foldr max 0

/-- The count of the most frequent 5-bit bin of `l`. -/
def maxCount (l : List Pixel) : ℕ := maxOver l fun p => countKey l (binKey p)

/-- Invariant of the `downscaleMode` scan after processing the prefix
`pre`: either nothing has been processed yet (`best` still the zero
pixel), or `best` is the raw pixel at whose position the first bin to
reach the running maximal count did so. -/
def ModeInv (pre : List Pixel) (best : Pixel) : Prop :=
  (pre = [] ∧ best = px0) ∨
  ∃ i, ∃ hi : i < pre.length,
    best = pre.get ⟨i, hi⟩ ∧
    countKey (pre.take (i + 1)) (binKey best) = maxCount pre ∧
    ∀ t (ht : t < pre.length),
      countKey (pre.take (t + 1)) (binKey (pre.get ⟨t, ht⟩)) = maxCount pre → i ≤ t

/-- Index helper: an element of `(List.range n).map f` by position. -/
theorem range_map_getD (n : ℕ) (f : ℕ → Pixel) (i : ℕ) (hi : i < n) (d : Pixel) :
    ((List.range n).map f).getD i d = f i := by
  rw [List.getD_eq_getElem _ _ (by simpa using hi)]
  simp

/-- Reading a pixel back from its flat index. -/
theorem getPx_index (img : ImageData) (i : ℕ) :
    getPx img (i % img.width) (i / img.width) = img.data.getD i px0 := by
  have h : i / img.width * img.width + i % img.width = i := by
    rw [mul_comm]
    exact Nat.div_add_mod i img.width
  unfold getPx
  rw [h]

/-- Flat index of a coordinate pair: column recovery. -/
theorem index_mod (w x y : ℕ) (hx : x < w) : (y * w + x) % w = x := by
  rw [mul_comm, Nat.mul_add_mod, Nat.mod_eq_of_lt hx]

/-- Flat index of a coordinate pair: row recovery. -/
theorem index_div (w x y : ℕ) (hx : x < w) : (y * w + x) / w = y := by
  rw [mul_comm, Nat.mul_add_div (Nat.lt_of_le_of_lt (Nat.zero_le x) hx),
    Nat.div_eq_of_lt hx, Nat.add_zero]

/-- Full behaviour of the nearest-entry scan: either no list element ever
beats the incoming best distance and the state is returned unchanged, or the
scan returns the position of the first strict minimum of the list, which
beats the incoming distance, is strictly below every earlier element and at
most every later element. -/
theorem scanBestP_spec {α : Type} [LinearOrder α] (l : List α) (j b : ℕ) (B : WithTop α) :
    ((scanBestP l j (b, B)).1 = b ∧ (scanBestP l j (b, B)).2 = B ∧
      ∀ t (ht : t < l.length), B ≤ (l.get ⟨t, ht⟩ : WithTop α)) ∨
    (∃ t, ∃ ht : t < l.length,
      (scanBestP l j (b, B)).1 = j + t ∧
      (scanBestP l j (b, B)).2 = (l.get ⟨t, ht⟩ : WithTop α) ∧
      (l.get ⟨t, ht⟩ : WithTop α) < B ∧
      (∀ s (hs : s < l.length), s < t → (l.get ⟨t, ht⟩ : WithTop α) < l.get ⟨s, hs⟩) ∧
      (∀ s (hs : s < l.length), t < s → (l.get ⟨t, ht⟩ : WithTop α) ≤ l.get ⟨s, hs⟩)) := by
  induction l generalizing j b B with
  | nil =>
    exact Or.inl ⟨rfl, rfl, fun t ht => absurd ht (by simp)⟩
  | cons d rest ih =>
    by_cases hd : (d : WithTop α) < B
    · have hstep : scanBestP (d :: rest) j (b, B) = scanBestP rest (j + 1) (j, (d : WithTop α)) := by
        simp [scanBestP, hd]
      rcases ih (j + 1) j (d : WithTop α) with ⟨h1, h2, h3⟩ | ⟨t, ht, h1, h2, h3, h4, h5⟩
      · refine Or.inr ⟨0, by simp, ?_, ?_, hd, ?_, ?_⟩
        · rw [hstep, h1, Nat.add_zero]
        · rw [hstep, h2]
          rfl
        · intro s hs hlt
          exact absurd hlt (Nat.not_lt_zero s)
        · intro s hs hgt
          match s, hs with
          | s' + 1, hs =>
            exact h3 s' (by simpa using hs)
      · refine Or.inr ⟨t + 1, by simpa using Nat.succ_lt_succ ht, ?_, ?_, ?_, ?_, ?_⟩
        · rw [hstep, h1]
          omega
        · rw [hstep, h2]
          rfl
        · exact lt_trans h3 hd
        · intro s hs hlt
          match s, hs with
          | 0, hs => exact h3
          | s' + 1, hs => exact h4 s' (by simpa using hs) (by omega)
        · intro s hs hgt
          match s, hs with
          | s' + 1, hs => exact h5 s' (by simpa using hs) (by omega)
    · have hstep : scanBestP (d :: rest) j (b, B) = scanBestP rest (j + 1) (b, B) := by
        simp [scanBestP, hd]
      rcases ih (j + 1) b B with ⟨h1, h2, h3⟩ | ⟨t, ht, h1, h2, h3, h4, h5⟩
      · refine Or.inl ⟨by rw [hstep, h1], by rw [hstep, h2], ?_⟩
        intro t ht
        match t, ht with
        | 0, ht => exact le_of_not_lt hd
        | t' + 1, ht => exact h3 t' (by simpa using ht)
      · refine Or.inr ⟨t + 1, by simpa using Nat.succ_lt_succ ht, ?_, ?_, h3, ?_, ?_⟩
        · rw [hstep, h1]
          omega
        · rw [hstep, h2]
          rfl
        · intro s hs hlt
          match s, hs with
          | 0, hs => exact lt_of_lt_of_le h3 (le_of_not_lt hd)
          | s' + 1, hs => exact h4 s' (by simpa using hs) (by omega)
        · intro s hs hgt
          match s, hs with
          | s' + 1, hs => exact h5 s' (by simpa using hs) (by omega)

/-- The scan's chosen index is in range, minimizes the list, and on ties is
the least index attaining the minimum. -/
theorem bestIndex_spec {α : Type} [LinearOrder α] (l : List α) (hl : 0 < l.length) :
    ∃ ht : bestIndex l < l.length,
      (∀ s (hs : s < l.length), l.get ⟨bestIndex l, ht⟩ ≤ l.get ⟨s, hs⟩) ∧
      (∀ s (hs : s < l.length), l.get ⟨s, hs⟩ = l.get ⟨bestIndex l, ht⟩ → bestIndex l ≤ s) := by
  rcases scanBestP_spec l 0 0 ⊤ with ⟨h1, h2, h3⟩ | ⟨t, ht, h1, h2, h3, h4, h5⟩
  · exact absurd (h3 0 hl) (by simp)
  · have hbt : bestIndex l = t := by
      unfold bestIndex
      rw [h1, Nat.zero_add]
    subst hbt
    refine ⟨ht, ?_, ?_⟩
    · intro s hs
      rcases Nat.lt_trichotomy s (bestIndex l) with h | h | h
      · exact le_of_lt (WithTop.coe_lt_coe.mp (h4 s hs h))
      · subst h
        exact le_refl _
      · exact WithTop.coe_le_coe.mp (h5 s hs h)
    · intro s hs heq
      by_contra hco
      have hslt : s < bestIndex l := by omega
      have := h4 s hs hslt
      rw [heq] at this
      exact lt_irrefl _ this

/-- The chosen index is always in range for a nonempty list. -/
theorem bestIndex_lt {α : Type} [LinearOrder α] (l : List α) (hl : 0 < l.length) :
    bestIndex l < l.length :=
  (bestIndex_spec l hl).choose

/-- `getD` through a pixel map. -/
theorem getD_map_pixel (f : Pixel → Pixel) (l : List Pixel) (i : ℕ) (hi : i < l.length) :
    (l.map f).getD i px0 = f (l.getD i px0) := by
  rw [List.getD_eq_getElem _ _ (by simpa using hi), List.getElem_map,
    List.getD_eq_getElem _ _ hi]

/-- `getD` at the scan's chosen index lands inside the palette. -/
theorem getD_bestIndex_mem {α : Type} [LinearOrder α] (palette : List Color)
    (dists : List α) (hlen : dists.length = palette.length) (hpal : 0 < palette.length) :
    palette.getD (bestIndex dists) ⟨0, 0, 0⟩ ∈ palette := by
  have h := bestIndex_lt dists (by omega)
  rw [List.getD_eq_getElem _ _ (by omega)]
  exact List.getElem_mem _

/-- Near-transparent short-circuit of `quantizeOklab`, pixel level. -/
theorem quantizeOklabPixel_transparent (palette : List Color) (p : Pixel)
    (ha : p.a < 10) : quantizeOklabPixel palette p = ⟨0, 0, 0, 0⟩ := by
  unfold quantizeOklabPixel
  rw [if_pos ha]

/-- Near-transparent short-circuit of `quantizeOklabBayer`, pixel level. -/
theorem quantizeOklabBayerPixel_transparent (palette : List Color) (strength : ℝ)
    (x y : ℕ) (p : Pixel) (ha : p.a < 10) :
    quantizeOklabBayerPixel palette strength x y p = ⟨0, 0, 0, 0⟩ := by
  unfold quantizeOklabBayerPixel
  rw [if_pos ha]

/-- Near-transparent short-circuit of the legacy reducer model, pixel level. -/
theorem quantizePalettePixel_transparent (palette : List Color) (p : Pixel)
    (ha : p.a < 10) : quantizePalettePixel palette p = ⟨0, 0, 0, 0⟩ := by
  unfold quantizePalettePixel
  rw [if_pos ha]

/-- An opaque-enough pixel of `quantizeOklab` is a palette entry with the
original alpha. -/
theorem quantizeOklabPixel_mem (palette : List Color) (p : Pixel)
    (hpal : 0 < palette.length) (ha : 10 ≤ p.a) :
    (quantizeOklabPixel palette p).rgb ∈ palette ∧ (quantizeOklabPixel palette p).a = p.a := by
  unfold quantizeOklabPixel
  rw [if_neg (by omega)]
  exact ⟨getD_bestIndex_mem palette _ (by simp [getPaletteOklab]) hpal, rfl⟩

/-- An opaque-enough pixel of `quantizeOklabBayer` is a palette entry with
the original alpha. -/
theorem quantizeOklabBayerPixel_mem (palette : List Color) (strength : ℝ)
    (x y : ℕ) (p : Pixel) (hpal : 0 < palette.length) (ha : 10 ≤ p.a) :
    (quantizeOklabBayerPixel palette strength x y p).rgb ∈ palette ∧
      (quantizeOklabBayerPixel palette strength x y p).a = p.a := by
  unfold quantizeOklabBayerPixel
  rw [if_neg (by omega)]
  exact ⟨getD_bestIndex_mem palette _ (by simp [getPaletteOklab]) hpal, rfl⟩

/-- An opaque-enough pixel of the legacy reducer model is a palette entry
with the original alpha. -/
theorem quantizePalettePixel_mem (palette : List Color) (p : Pixel)
    (hpal : 0 < palette.length) (ha : 10 ≤ p.a) :
    (quantizePalettePixel palette p).rgb ∈ palette ∧ (quantizePalettePixel palette p).a = p.a := by
  unfold quantizePalettePixel
  rw [if_neg (by omega)]
  exact ⟨getD_bestIndex_mem palette _ (by simp) hpal, rfl⟩

/-- Claim C1: for every raster and every palette of length ≥ 1, in the
oklab-nearest, oklab-bayer-dither and legacy-histogram quantization modes,
every output pixel whose input alpha is ≥ 10 has an RGB triple that is
exactly a member of the palette. -/
theorem claim1_palette_closure (img : ImageData) (palette : List Color)
    (strength : ℝ) (dithering : Option String) (i : ℕ)
    (hpal : 0 < palette.length) (hi : i < img.data.length) (hwf : wellFormed img)
    (ha : 10 ≤ (img.data.getD i px0).a) :
    ((quantizeOklab img palette).data.getD i px0).rgb ∈ palette ∧
    ((quantizeOklabBayer img palette strength).data.getD i px0).rgb ∈ palette ∧
    ((quantizePalette img dithering palette).data.getD i px0).rgb ∈ palette := by
  refine ⟨?_, ?_, ?_⟩
  · show ((img.data.map (quantizeOklabPixel palette)).getD i px0).rgb ∈ palette
    rw [getD_map_pixel _ _ _ hi]
    exact (quantizeOklabPixel_mem palette _ hpal ha).1
  · have hwh : i < img.width * img.height := hwf ▸ hi
    show ((((List.range (img.width * img.height)).map fun i =>
        quantizeOklabBayerPixel palette strength (i % img.width) (i / img.width)
          (getPx img (i % img.width) (i / img.width))).getD i px0)).rgb ∈ palette
    rw [range_map_getD _ _ i hwh, getPx_index]
    exact (quantizeOklabBayerPixel_mem palette strength _ _ _ hpal ha).1
  · show ((img.data.map (quantizePalettePixel palette)).getD i px0).rgb ∈ palette
    rw [getD_map_pixel _ _ _ hi]
    exact (quantizePalettePixel_mem palette _ hpal ha).1

/-- Witness for C1 at a concrete raster and palette. -/
theorem claim1_palette_closure_witness :
    (0 < palRB.length ∧ 0 < oneImg.data.length ∧ wellFormed oneImg ∧
      10 ≤ (oneImg.data.getD 0 px0).a) ∧
    (((quantizeOklab oneImg palRB).data.getD 0 px0).rgb ∈ palRB ∧
      ((quantizeOklabBayer oneImg palRB 0).data.getD 0 px0).rgb ∈ palRB ∧
      ((quantizePalette oneImg none palRB).data.getD 0 px0).rgb ∈ palRB) :=
  ⟨⟨by decide, by decide, by decide, by decide⟩,
    claim1_palette_closure oneImg palRB 0 none 0 (by decide) (by decide) (by decide) (by decide)⟩

/-- Claim C2 (amended): every input pixel with alpha < 10 is mapped to the
fully transparent black pixel (0,0,0,0) by the oklab-nearest,
oklab-bayer-dither and legacy-histogram quantizers; the bit-depth-reduce
mode does not short-circuit (see the counterexample), it keeps alpha and
merely bit-reduces the RGB channels. -/
theorem claim2_transparent_shortcircuit (img : ImageData) (palette : List Color)
    (strength : ℝ) (dithering : Option String) (i : ℕ)
    (hi : i < img.data.length) (hwf : wellFormed img)
    (ha : (img.data.getD i px0).a < 10) :
    (quantizeOklab img palette).data.getD i px0 = ⟨0, 0, 0, 0⟩ ∧
    (quantizeOklabBayer img palette strength).data.getD i px0 = ⟨0, 0, 0, 0⟩ ∧
    (quantizePalette img dithering palette).data.getD i px0 = ⟨0, 0, 0, 0⟩ := by
  refine ⟨?_, ?_, ?_⟩
  · show (img.data.map (quantizeOklabPixel palette)).getD i px0 = _
    rw [getD_map_pixel _ _ _ hi]
    exact quantizeOklabPixel_transparent palette _ ha
  · have hwh : i < img.width * img.height := hwf ▸ hi
    show (((List.range (img.width * img.height)).map fun i =>
        quantizeOklabBayerPixel palette strength (i % img.width) (i / img.width)
          (getPx img (i % img.width) (i / img.width))).getD i px0) = _
    rw [range_map_getD _ _ i hwh, getPx_index]
    exact quantizeOklabBayerPixel_transparent palette strength _ _ _ ha
  · show (img.data.map (quantizePalettePixel palette)).getD i px0 = _
    rw [getD_map_pixel _ _ _ hi]
    exact quantizePalettePixel_transparent palette _ ha

/-- Witness for the amended C2 at a concrete raster. -/
theorem claim2_transparent_shortcircuit_witness :
    (0 < lowAlphaImg.data.length ∧ wellFormed lowAlphaImg ∧
      (lowAlphaImg.data.getD 0 px0).a < 10) ∧
    ((quantizeOklab lowAlphaImg palRB).data.getD 0 px0 = ⟨0, 0, 0, 0⟩ ∧
      (quantizeOklabBayer lowAlphaImg palRB 0).data.getD 0 px0 = ⟨0, 0, 0, 0⟩ ∧
      (quantizePalette lowAlphaImg none palRB).data.getD 0 px0 = ⟨0, 0, 0, 0⟩) :=
  ⟨⟨by decide, by decide, by decide⟩,
    claim2_transparent_shortcircuit lowAlphaImg palRB 0 none 0 (by decide) (by decide) (by decide)⟩

/-- Counterexample to C2 as stated: in the bit-depth-reduce mode a pixel
with alpha 5 < 10 is not turned into (0,0,0,0); its alpha stays 5 and its
RGB stays nonzero. -/
theorem claim2_counterexample :
    (lowAlphaImg.data.getD 0 px0).a < 10 ∧
    (quantizeBitReduce lowAlphaImg).data.getD 0 px0 ≠ ⟨0, 0, 0, 0⟩ ∧
    ((quantizeBitReduce lowAlphaImg).data.getD 0 px0).a = 5 := by
  decide

/-- The distance list scanned by `quantizeOklab` is the palette mapped
through `pixDist`. -/
theorem oklabDists_eq (palette : List Color) (p : Pixel) :
    ((getPaletteOklab palette).map fun lab => oklabDistSq (srgbToOklab p.r p.g p.b) lab)
      = palette.map (pixDist p) := by
  simp only [getPaletteOklab, List.map_map]
  rfl

/-- `quantizeOklab` on an opaque-enough pixel, written through `pixDist`. -/
theorem quantizeOklabPixel_eq (palette : List Color) (p : Pixel) (ha : 10 ≤ p.a) :
    quantizeOklabPixel palette p =
      ⟨(palette.getD (bestIndex (palette.map (pixDist p))) ⟨0, 0, 0⟩).r,
       (palette.getD (bestIndex (palette.map (pixDist p))) ⟨0, 0, 0⟩).g,
       (palette.getD (bestIndex (palette.map (pixDist p))) ⟨0, 0, 0⟩).b, p.a⟩ := by
  unfold quantizeOklabPixel
  rw [if_neg (by omega)]
  simp only [oklabDists_eq palette p]

/-- Reading the mapped distance list by index. -/
theorem get_map_pixDist (palette : List Color) (p : Pixel) (s : ℕ)
    (hs : s < (palette.map (pixDist p)).length) (hsp : s < palette.length) :
    (palette.map (pixDist p)).get ⟨s, hs⟩ = pixDist p (palette.get ⟨s, hsp⟩) := by
  simp [List.get_map]

/-- Claim C3: for every pixel with alpha ≥ 10 and every nonempty palette,
the oklab-nearest quantizer writes the palette entry whose OKLAB squared
distance to the pixel is minimal, and whenever several entries attain the
minimum it uses the lowest such index (so for two exactly equidistant
entries, index 0 wins). -/
theorem claim3_nearest_tiebreak (palette : List Color) (p : Pixel)
    (hpal : 0 < palette.length) (ha : 10 ≤ p.a) :
    ∃ j, ∃ hj : j < palette.length,
      quantizeOklabPixel palette p =
        ⟨(palette.get ⟨j, hj⟩).r, (palette.get ⟨j, hj⟩).g, (palette.get ⟨j, hj⟩).b, p.a⟩ ∧
      (∀ k (hk : k < palette.length),
        pixDist p (palette.get ⟨j, hj⟩) ≤ pixDist p (palette.get ⟨k, hk⟩)) ∧
      (∀ k (hk : k < palette.length),
        pixDist p (palette.get ⟨k, hk⟩) = pixDist p (palette.get ⟨j, hj⟩) → j ≤ k) := by
  have hlen : (palette.map (pixDist p)).length = palette.length := by simp
  obtain ⟨hj, hmin, htie⟩ := bestIndex_spec (palette.map (pixDist p)) (by omega)
  have hjp : bestIndex (palette.map (pixDist p)) < palette.length := by omega
  refine ⟨bestIndex (palette.map (pixDist p)), hjp, ?_, ?_, ?_⟩
  · rw [quantizeOklabPixel_eq palette p ha]
    rw [List.getD_eq_getElem _ _ hjp]
    rfl
  · intro k hk
    have h := hmin k (by omega)
    rw [get_map_pixDist palette p _ _ hjp, get_map_pixDist palette p _ _ hk] at h
    exact h
  · intro k hk heq
    apply htie k (by omega)
    rw [get_map_pixDist palette p _ _ hjp, get_map_pixDist palette p _ _ hk]
    exact heq

/-- Witness for C3 at a duplicate-entry palette, where the pixel is exactly
equidistant from both entries. -/
theorem claim3_nearest_tiebreak_witness :
    (0 < palDup.length ∧ 10 ≤ (⟨255, 255, 255, 255⟩ : Pixel).a) ∧
    (∃ j, ∃ hj : j < palDup.length,
      quantizeOklabPixel palDup ⟨255, 255, 255, 255⟩ =
        ⟨(palDup.get ⟨j, hj⟩).r, (palDup.get ⟨j, hj⟩).g, (palDup.get ⟨j, hj⟩).b, 255⟩ ∧
      (∀ k (hk : k < palDup.length),
        pixDist ⟨255, 255, 255, 255⟩ (palDup.get ⟨j, hj⟩) ≤
          pixDist ⟨255, 255, 255, 255⟩ (palDup.get ⟨k, hk⟩)) ∧
      (∀ k (hk : k < palDup.length),
        pixDist ⟨255, 255, 255, 255⟩ (palDup.get ⟨k, hk⟩) =
          pixDist ⟨255, 255, 255, 255⟩ (palDup.get ⟨j, hj⟩) → j ≤ k)) :=
  ⟨⟨by decide, by decide⟩,
    claim3_nearest_tiebreak palDup ⟨255, 255, 255, 255⟩ (by decide) (by decide)⟩

/-- When the target dimensions equal the source dimensions, every cell is
the single pixel at its own coordinates. -/
theorem cellPixels_identity (img : ImageData) (x y : ℕ)
    (hw : 0 < img.width) (hh : 0 < img.height) :
    cellPixels img img.width img.height x y = [getPx img x y] := by
  unfold cellPixels
  rw [Nat.mul_div_cancel _ hw, Nat.mul_div_cancel _ hh,
    Nat.mul_div_cancel _ hw, Nat.mul_div_cancel _ hh]
  simp [List.range_succ]

/-- The scan over a one-pixel cell picks that pixel. -/
theorem modeBest_singleton (p : Pixel) : modeBest [p] = p := rfl

/-- Element of a range-map by index. -/
theorem get_range_map (n : ℕ) (f : ℕ → Pixel) (i : ℕ)
    (hi : i < ((List.range n).map f).length) :
    ((List.range n).map f).get ⟨i, hi⟩ = f i := by
  simp [List.get_map]

/-- Claim C5: for every well-formed raster all of whose pixels are fully
opaque, downscaling with the mode strategy to the raster's own dimensions
returns the raster unchanged, bit for bit. -/
theorem claim5_downscale_identity (img : ImageData) (hwf : wellFormed img)
    (hop : ∀ p ∈ img.data, p.a = 255) :
    downscaleMode img img.width img.height = img := by
  obtain ⟨w, h, data⟩ := img
  have hwf : data.length = w * h := hwf
  unfold downscaleMode
  have hdata : ((List.range (w * h)).map fun i =>
      modeBest (cellPixels ⟨w, h, data⟩ w h (i % w) (i / w))) = data := by
    apply List.ext_get
    · simpa using hwf.symm
    · intro n h1 h2
      rw [get_range_map]
      have hn : n < w * h := by simpa using h1
      have hw : 0 < w := by
        rcases Nat.eq_zero_or_pos w with h | h
        · subst h
          simp at hn
        · exact h
      have hh : 0 < h := by
        rcases Nat.eq_zero_or_pos h with h0 | h0
        · subst h0
          simp at hn
        · exact h0
      rw [cellPixels_identity ⟨w, h, data⟩ _ _ hw hh, modeBest_singleton]
      show data.getD (n / w * w + n % w) px0 = data.get ⟨n, h2⟩
      have hidx : n / w * w + n % w = n := by
        rw [mul_comm]
        exact Nat.div_add_mod n w
      rw [hidx, List.getD_eq_getElem _ _ h2]
      rfl
  rw [hdata]

/-- Witness for C5 on a concrete opaque 2×2 raster. -/
theorem claim5_downscale_identity_witness :
    (wellFormed tieImg ∧ ∀ p ∈ tieImg.data, p.a = 255) ∧
    downscaleMode tieImg tieImg.width tieImg.height = tieImg :=
  ⟨⟨by decide, by decide⟩,
    claim5_downscale_identity tieImg (by decide) (by decide)⟩

/-- The scan over a cell either keeps the incoming best or returns a cell
member. -/
theorem modeScan_mem (l : List Pixel) : ∀ (cnt : (ℕ × ℕ × ℕ × ℕ) → ℕ) (bc : ℕ) (best : Pixel),
    modeScan l cnt bc best = best ∨ modeScan l cnt bc best ∈ l := by
  induction l with
  | nil =>
    intro cnt bc best
    exact Or.inl rfl
  | cons p rest ih =>
    intro cnt bc best
    unfold modeScan
    by_cases hc : bc < cnt (binKey p) + 1
    · rw [if_pos hc]
      rcases ih (fun k => if k = binKey p then cnt (binKey p) + 1 else cnt k)
          (cnt (binKey p) + 1) p with h | h
      · rw [h]
        exact Or.inr (List.mem_cons_self p rest)
      · exact Or.inr (List.mem_cons_of_mem p h)
    · rw [if_neg hc]
      rcases ih (fun k => if k = binKey p then cnt (binKey p) + 1 else cnt k)
          bc best with h | h
      · exact Or.inl h
      · exact Or.inr (List.mem_cons_of_mem p h)

/-- The winner of a nonempty cell is one of its pixels. -/
theorem modeBest_mem (l : List Pixel) (hl : l ≠ []) : modeBest l ∈ l := by
  match l, hl with
  | p :: rest, _ =>
    unfold modeBest modeScan
    rw [if_pos (by omega)]
    rcases modeScan_mem rest (fun k => if k = binKey p then 1 else 0) 1 p with h | h
    · rw [h]
      exact List.mem_cons_self p rest
    · exact List.mem_cons_of_mem p h

/-- Averaging a single-element cell returns the element. -/
theorem avgChannel_single (c : ℕ) : avgChannel c 1 = c := by
  unfold avgChannel
  omega

/-- Claim C8 (amended): for target dimensions exceeding the source in some
direction both downscale strategies still run and produce a raster of the
requested dimensions; a cell covering at least one whole source pixel
yields one of its covered pixels (mode strategy) or, when it covers exactly
one pixel, that pixel (average strategy); but a cell covering zero whole
source pixels yields the transparent black pixel (0,0,0,0), not the value
of a nearby source pixel. -/
theorem claim8_degenerate_upscale (img : ImageData) (tw th : ℕ)
    (hdeg : img.width < tw ∨ img.height < th) (x y : ℕ) (hx : x < tw) (hy : y < th) :
    (downscaleMode img tw th).width = tw ∧ (downscaleMode img tw th).height = th ∧
    (downscaleMode img tw th).data.length = tw * th ∧
    (downscaleAverage img tw th).width = tw ∧ (downscaleAverage img tw th).height = th ∧
    (downscaleAverage img tw th).data.length = tw * th ∧
    (cellPixels img tw th x y ≠ [] →
      (downscaleMode img tw th).data.getD (y * tw + x) px0 ∈ cellPixels img tw th x y) ∧
    (cellPixels img tw th x y = [] →
      (downscaleMode img tw th).data.getD (y * tw + x) px0 = ⟨0, 0, 0, 0⟩ ∧
      (downscaleAverage img tw th).data.getD (y * tw + x) px0 = ⟨0, 0, 0, 0⟩) ∧
    (∀ p, cellPixels img tw th x y = [p] →
      (downscaleAverage img tw th).data.getD (y * tw + x) px0 = p) := by
  have hidx : y * tw + x < tw * th := by
    have h1 : y * tw + x < (y + 1) * tw := by
      have : (y + 1) * tw = y * tw + tw := by ring
      omega
    have h2 : (y + 1) * tw ≤ th * tw := Nat.mul_le_mul_right tw (by omega)
    have h3 : th * tw = tw * th := Nat.mul_comm th tw
    omega
  have hmode : (downscaleMode img tw th).data.getD (y * tw + x) px0 =
      modeBest (cellPixels img tw th x y) := by
    show (((List.range (tw * th)).map fun i =>
      modeBest (cellPixels img tw th (i % tw) (i / tw))).getD (y * tw + x) px0) = _
    rw [range_map_getD _ _ _ hidx, index_mod tw x y hx, index_div tw x y hx]
  have havg : (downscaleAverage img tw th).data.getD (y * tw + x) px0 =
      ⟨avgChannel ((cellPixels img tw th x y).map Pixel.r).sum (cellPixels img tw th x y).length,
       avgChannel ((cellPixels img tw th x y).map Pixel.g).sum (cellPixels img tw th x y).length,
       avgChannel ((cellPixels img tw th x y).map Pixel.b).sum (cellPixels img tw th x y).length,
       avgChannel ((cellPixels img tw th x y).map Pixel.a).sum (cellPixels img tw th x y).length⟩ := by
    show (((List.range (tw * th)).map fun i =>
      (⟨avgChannel ((cellPixels img tw th (i % tw) (i / tw)).map Pixel.r).sum
          (cellPixels img tw th (i % tw) (i / tw)).length,
        avgChannel ((cellPixels img tw th (i % tw) (i / tw)).map Pixel.g).sum
          (cellPixels img tw th (i % tw) (i / tw)).length,
        avgChannel ((cellPixels img tw th (i % tw) (i / tw)).map Pixel.b).sum
          (cellPixels img tw th (i % tw) (i / tw)).length,
        avgChannel ((cellPixels img tw th (i % tw) (i / tw)).map Pixel.a).sum
          (cellPixels img tw th (i % tw) (i / tw)).length⟩ : Pixel)).getD (y * tw + x) px0) = _
    rw [range_map_getD _ _ _ hidx, index_mod tw x y hx, index_div tw x y hx]
  refine ⟨rfl, rfl, by simp [downscaleMode], rfl, rfl, by simp [downscaleAverage], ?_, ?_, ?_⟩
  · intro hne
    rw [hmode]
    exact modeBest_mem _ hne
  · intro hempty
    constructor
    · rw [hmode, hempty]
      rfl
    · rw [havg, hempty]
      rfl
  · intro p hsingle
    rw [havg, hsingle]
    simp [avgChannel_single]

/-- Witness for the amended C8: a 1×1 source upscaled to 2×2; the (0,0)
cell covers zero whole source pixels. -/
theorem claim8_degenerate_upscale_witness :
    (oneImg.width < 2 ∨ oneImg.height < 2) ∧ (0 < 2 ∧ 0 < 2) ∧
    ((downscaleMode oneImg 2 2).width = 2 ∧ (downscaleMode oneImg 2 2).height = 2 ∧
      (downscaleMode oneImg 2 2).data.length = 2 * 2 ∧
      (downscaleAverage oneImg 2 2).width = 2 ∧ (downscaleAverage oneImg 2 2).height = 2 ∧
      (downscaleAverage oneImg 2 2).data.length = 2 * 2 ∧
      (cellPixels oneImg 2 2 0 0 ≠ [] →
        (downscaleMode oneImg 2 2).data.getD (0 * 2 + 0) px0 ∈ cellPixels oneImg 2 2 0 0) ∧
      (cellPixels oneImg 2 2 0 0 = [] →
        (downscaleMode oneImg 2 2).data.getD (0 * 2 + 0) px0 = ⟨0, 0, 0, 0⟩ ∧
        (downscaleAverage oneImg 2 2).data.getD (0 * 2 + 0) px0 = ⟨0, 0, 0, 0⟩) ∧
      (∀ p, cellPixels oneImg 2 2 0 0 = [p] →
        (downscaleAverage oneImg 2 2).data.getD (0 * 2 + 0) px0 = p)) :=
  ⟨Or.inl (by decide), ⟨by decide, by decide⟩,
    claim8_degenerate_upscale oneImg 2 2 (Or.inl (by decide)) 0 0 (by decide) (by decide)⟩

/-- A member's value is at most the maximum over the list. -/
theorem le_maxOver {l : List Pixel} {f : Pixel → ℕ} {p : Pixel} (h : p ∈ l) :
    f p ≤ maxOver l f := by
  induction l with
  | nil => cases h
  | cons q rest ih =>
    unfold maxOver
    rw [List.map_cons, List.foldr_cons]
    rcases List.mem_cons.mp h with h | h
    · subst h
      exact le_max_left _ _
    · exact le_trans (ih h) (le_max_right _ _)

/-- An upper bound on every member bounds the maximum. -/
theorem maxOver_le {l : List Pixel} {f : Pixel → ℕ} {n : ℕ} (h : ∀ p ∈ l, f p ≤ n) :
    maxOver l f ≤ n := by
  induction l with
  | nil => exact Nat.zero_le n
  | cons q rest ih =>
    unfold maxOver
    rw [List.map_cons, List.foldr_cons]
    exact max_le (h q (List.mem_cons_self q rest))
      (ih fun p hp => h p (List.mem_cons_of_mem q hp))

/-- Bin counts add over list append. -/
theorem countKey_append (l1 l2 : List Pixel) (k : ℕ × ℕ × ℕ × ℕ) :
    countKey (l1 ++ l2) k = countKey l1 k + countKey l2 k := by
  unfold countKey
  exact List.countP_append _ _ _

/-- Bin count of a singleton. -/
theorem countKey_singleton (p : Pixel) (k : ℕ × ℕ × ℕ × ℕ) :
    countKey [p] k = if binKey p = k then 1 else 0 := by
  unfold countKey
  by_cases h : binKey p = k
  · simp [h]
  · simp [h]

/-- A prefix never counts more than the whole list. -/
theorem countKey_take_le (l : List Pixel) (n : ℕ) (k : ℕ × ℕ × ℕ × ℕ) :
    countKey (l.take n) k ≤ countKey l k := by
  unfold countKey
  exact (List.take_sublist n l).countP_le _

/-- The bin of a member never counts more than the maximal bin. -/
theorem countKey_le_maxCount {l : List Pixel} {p : Pixel} (h : p ∈ l) :
    countKey l (binKey p) ≤ maxCount l := by
  unfold maxCount
  exact @le_maxOver l (fun q => countKey l (binKey q)) p h

/-- Appending one pixel: the new maximal count is the old one or the new
pixel's bin count, whichever is larger. -/
theorem maxCount_append_singleton (l : List Pixel) (p : Pixel) :
    maxCount (l ++ [p]) = max (maxCount l) (countKey (l ++ [p]) (binKey p)) := by
  apply le_antisymm
  · apply maxOver_le
    intro q hq
    rcases List.mem_append.mp hq with hq | hq
    · by_cases hk : binKey q = binKey p
      · rw [hk]
        exact le_max_right _ _
      · have heq : countKey (l ++ [p]) (binKey q) = countKey l (binKey q) := by
          rw [countKey_append, countKey_singleton,
            if_neg (show binKey p ≠ binKey q from fun h => hk h.symm)]
          omega
        rw [heq]
        exact le_max_of_le_left (countKey_le_maxCount hq)
    · have hqp : q = p := by simpa using hq
      subst hqp
      exact le_max_right _ _
  · apply max_le
    · apply maxOver_le
      intro q hq
      have h1 : countKey l (binKey q) ≤ countKey (l ++ [p]) (binKey q) := by
        rw [countKey_append]
        omega
      exact le_trans h1 (countKey_le_maxCount (List.mem_append_left _ hq))
    · exact countKey_le_maxCount (List.mem_append_right _ (by simp))

/-- Last element of an appended singleton. -/
theorem get_append_length (l : List Pixel) (p : Pixel) (h : l.length < (l ++ [p]).length) :
    (l ++ [p]).get ⟨l.length, h⟩ = p := by
  simp [List.get_append_right]

/-- The invariant of the `downscaleMode` scan is preserved over the whole
cell: starting from the counts and maximal count of a processed prefix, the
scan of the remaining pixels re-establishes `ModeInv` for the full list. -/
theorem modeScan_inv (rest : List Pixel) : ∀ (pre : List Pixel) (best : Pixel),
    ModeInv pre best →
    ModeInv (pre ++ rest) (modeScan rest (fun k => countKey pre k) (maxCount pre) best) := by
  induction rest with
  | nil =>
    intro pre best h
    simpa using h
  | cons p rest ih =>
    intro pre best hinv
    unfold modeScan
    have hcnt2 : (fun k => if k = binKey p then countKey pre (binKey p) + 1 else countKey pre k)
        = fun k => countKey (pre ++ [p]) k := by
      funext k
      by_cases hk : k = binKey p
      · subst hk
        rw [if_pos rfl, countKey_append, countKey_singleton, if_pos rfl]
      · rw [if_neg hk, countKey_append, countKey_singleton,
          if_neg (fun h => hk h.symm), Nat.add_zero]
    have hcfull : countKey pre (binKey p) + 1 = countKey (pre ++ [p]) (binKey p) := by
      rw [countKey_append, countKey_singleton, if_pos rfl]
    have hsplit : pre ++ p :: rest = (pre ++ [p]) ++ rest := by simp
    by_cases hc : maxCount pre < countKey pre (binKey p) + 1
    · rw [if_pos hc, hcnt2, hsplit]
      have hmax : maxCount (pre ++ [p]) = countKey pre (binKey p) + 1 := by
        rw [maxCount_append_singleton, ← hcfull]
        exact Nat.max_eq_right (by omega)
      rw [show countKey pre (binKey p) + 1 = maxCount (pre ++ [p]) from hmax.symm]
      apply ih (pre ++ [p]) p
      refine Or.inr ⟨pre.length, by simpa using Nat.lt_succ_self pre.length, ?_, ?_, ?_⟩
      · rw [get_append_length]
      · rw [show pre.length + 1 = (pre ++ [p]).length by simp, List.take_length]
        rw [hmax, ← hcfull]
      · intro t ht hattain
        by_cases htp : t < pre.length
        · exfalso
          have hget : (pre ++ [p]).get ⟨t, ht⟩ = pre.get ⟨t, htp⟩ := List.get_append t htp
          have htake : (pre ++ [p]).take (t + 1) = pre.take (t + 1) :=
            List.take_append_of_le_length (by omega)
          rw [hget, htake, hmax] at hattain
          have h1 : countKey (pre.take (t + 1)) (binKey (pre.get ⟨t, htp⟩)) ≤
              countKey pre (binKey (pre.get ⟨t, htp⟩)) := countKey_take_le _ _ _
          have h2 : countKey pre (binKey (pre.get ⟨t, htp⟩)) ≤ maxCount pre :=
            countKey_le_maxCount (List.get_mem _ _ _)
          omega
        · omega
    · rw [if_neg hc, hcnt2, hsplit]
      have hmax2 : maxCount (pre ++ [p]) = maxCount pre := by
        rw [maxCount_append_singleton, ← hcfull]
        exact Nat.max_eq_left (by omega)
      rw [show maxCount pre = maxCount (pre ++ [p]) from hmax2.symm]
      apply ih (pre ++ [p]) best
      have hpre_ne : pre ≠ [] := by
        intro h
        subst h
        exact hc (by simp [maxCount, maxOver, countKey])
      rcases hinv with ⟨hpe, _⟩ | ⟨i, hi, hbest, hcount, hfirst⟩
      · exact absurd hpe hpre_ne
      · refine Or.inr ⟨i, by simpa using Nat.lt_succ_of_lt hi, ?_, ?_, ?_⟩
        · rw [List.get_append i hi]
          exact hbest
        · rw [List.take_append_of_le_length (by omega), hmax2]
          exact hcount
        · intro t ht hattain
          by_cases htp : t < pre.length
          · rw [List.get_append t htp, List.take_append_of_le_length (by omega), hmax2] at hattain
            exact hfirst t htp hattain
          · omega

/-- Full characterisation of the winner of one `downscaleMode` cell: it is
the pixel at the first position where any 5-bit bin reaches the cell's
maximal bin count; in particular its bin attains the maximal count. -/
theorem modeBest_spec (l : List Pixel) (hl : l ≠ []) :
    ∃ i, ∃ hi : i < l.length,
      modeBest l = l.get ⟨i, hi⟩ ∧
      countKey l (binKey (modeBest l)) = maxCount l ∧
      countKey (l.take (i + 1)) (binKey (modeBest l)) = maxCount l ∧
      ∀ t (ht : t < l.length),
        countKey (l.take (t + 1)) (binKey (l.get ⟨t, ht⟩)) = maxCount l → i ≤ t := by
  have h0 : ModeInv [] px0 := Or.inl ⟨rfl, rfl⟩
  have h := modeScan_inv l [] px0 h0
  have hEq : modeScan l (fun k => countKey [] k) (maxCount []) px0 = modeBest l := rfl
  rw [hEq] at h
  simp only [List.nil_append] at h
  rcases h with ⟨hle, _⟩ | ⟨i, hi, hbest, hcount, hfirst⟩
  · exact absurd hle hl
  · refine ⟨i, hi, hbest, ?_, hcount, hfirst⟩
    have h1 : countKey (l.take (i + 1)) (binKey (modeBest l)) ≤
        countKey l (binKey (modeBest l)) := countKey_take_le _ _ _
    have h2 : countKey l (binKey (modeBest l)) ≤ maxCount l := by
      apply countKey_le_maxCount
      rw [hbest]
      exact List.get_mem _ _ _
    omega

/-- The output pixel of `downscaleMode` at cell `(x, y)` is the winner of
that cell's scan. -/
theorem downscaleMode_getD (img : ImageData) (tw th x y : ℕ) (hx : x < tw) (hy : y < th) :
    (downscaleMode img tw th).data.getD (y * tw + x) px0 =
      modeBest (cellPixels img tw th x y) := by
  have hidx : y * tw + x < tw * th := by
    have h1 : (y + 1) * tw = y * tw + tw := by ring
    have h2 : (y + 1) * tw ≤ th * tw := Nat.mul_le_mul_right tw (by omega)
    have h3 : th * tw = tw * th := Nat.mul_comm th tw
    omega
  show (((List.range (tw * th)).map fun i =>
    modeBest (cellPixels img tw th (i % tw) (i / tw))).getD (y * tw + x) px0) = _
  rw [range_map_getD _ _ _ hidx, index_mod tw x y hx, index_div tw x y hx]

/-- Claim C4 (amended): each source pixel of a mode-downscale cell is
binned by truncating each 8-bit channel to its top 5 bits (the `/ 8` of
`binKey`), and the output pixel's bin attains the maximal bin count of the
cell; but on a count tie the winner is not the first color encountered in
scan order: the output is the raw RGBA of the pixel at which the earliest
bin to reach the maximal count completed that count. -/
theorem claim4_mode_tiebreak (img : ImageData) (tw th x y : ℕ)
    (hx : x < tw) (hy : y < th) (hne : cellPixels img tw th x y ≠ []) :
    ∃ i, ∃ hi : i < (cellPixels img tw th x y).length,
      (downscaleMode img tw th).data.getD (y * tw + x) px0 =
        (cellPixels img tw th x y).get ⟨i, hi⟩ ∧
      countKey (cellPixels img tw th x y)
          (binKey ((downscaleMode img tw th).data.getD (y * tw + x) px0)) =
        maxCount (cellPixels img tw th x y) ∧
      countKey ((cellPixels img tw th x y).take (i + 1))
          (binKey ((downscaleMode img tw th).data.getD (y * tw + x) px0)) =
        maxCount (cellPixels img tw th x y) ∧
      ∀ t (ht : t < (cellPixels img tw th x y).length),
        countKey ((cellPixels img tw th x y).take (t + 1))
            (binKey ((cellPixels img tw th x y).get ⟨t, ht⟩)) =
          maxCount (cellPixels img tw th x y) → i ≤ t := by
  rw [downscaleMode_getD img tw th x y hx hy]
  exact modeBest_spec (cellPixels img tw th x y) hne

/-- Witness for the amended C4 on the concrete tie cell. -/
theorem claim4_mode_tiebreak_witness :
    (0 < 1 ∧ 0 < 1 ∧ cellPixels tieImg 1 1 0 0 ≠ []) ∧
    (∃ i, ∃ hi : i < (cellPixels tieImg 1 1 0 0).length,
      (downscaleMode tieImg 1 1).data.getD (0 * 1 + 0) px0 =
        (cellPixels tieImg 1 1 0 0).get ⟨i, hi⟩ ∧
      countKey (cellPixels tieImg 1 1 0 0)
          (binKey ((downscaleMode tieImg 1 1).data.getD (0 * 1 + 0) px0)) =
        maxCount (cellPixels tieImg 1 1 0 0) ∧
      countKey ((cellPixels tieImg 1 1 0 0).take (i + 1))
          (binKey ((downscaleMode tieImg 1 1).data.getD (0 * 1 + 0) px0)) =
        maxCount (cellPixels tieImg 1 1 0 0) ∧
      ∀ t (ht : t < (cellPixels tieImg 1 1 0 0).length),
        countKey ((cellPixels tieImg 1 1 0 0).take (t + 1))
            (binKey ((cellPixels tieImg 1 1 0 0).get ⟨t, ht⟩)) =
          maxCount (cellPixels tieImg 1 1 0 0) → i ≤ t) :=
  ⟨⟨by decide, by decide, by decide⟩,
    claim4_mode_tiebreak tieImg 1 1 0 0 (by decide) (by decide) (by decide)⟩

/-- Counterexample to C4 as stated: in the single cell of `tieImg`
downscaled 2×2 → 1×1 the black and red 5-bit bins tie at the maximal
count, the first color encountered in scan order is black, yet the output
pixel is red — the pixel at which the red bin first reached the maximal
count. -/
theorem claim4_counterexample :
    countKey (cellPixels tieImg 1 1 0 0) (binKey ⟨0, 0, 0, 255⟩) =
      maxCount (cellPixels tieImg 1 1 0 0) ∧
    countKey (cellPixels tieImg 1 1 0 0) (binKey ⟨255, 0, 0, 255⟩) =
      maxCount (cellPixels tieImg 1 1 0 0) ∧
    binKey ⟨0, 0, 0, 255⟩ ≠ binKey ⟨255, 0, 0, 255⟩ ∧
    (cellPixels tieImg 1 1 0 0).getD 0 px0 = ⟨0, 0, 0, 255⟩ ∧
    (downscaleMode tieImg 1 1).data.getD 0 px0 = ⟨255, 0, 0, 255⟩ := by
  decide

/-- Coordinates within bounds give a flat index within bounds. -/
theorem coord_index_lt (w h x y : ℕ) (hx : x < w) (hy : y < h) : y * w + x < w * h := by
  have h1 : (y + 1) * w = y * w + w := by ring
  have h2 : (y + 1) * w ≤ h * w := Nat.mul_le_mul_right w (by omega)
  have h3 : h * w = w * h := Nat.mul_comm h w
  omega

/-- Reading `generateOutlines` output by flat index. -/
theorem generateOutlines_getD (img : ImageData) (f : ℚ) (i : ℕ)
    (hwh : i < img.width * img.height) :
    (generateOutlines img f).data.getD i px0 =
      outlinePixel img f (i % img.width) (i / img.width) := by
  show (((List.range (img.width * img.height)).map fun j =>
    outlinePixel img f (j % img.width) (j / img.width)).getD i px0) = _
  exact range_map_getD _ _ _ hwh px0

/-- Rounding `c * (1 - f)` never exceeds `c` when `0 < f < 1`. -/
theorem darken_le (c : ℕ) (f : ℚ) (h0 : 0 < f) (h1 : f < 1) : darken c f ≤ c := by
  unfold darken roundQ
  have hle : (c : ℚ) * (1 - f) ≤ (c : ℚ) := by
    have h3 : (1 : ℚ) - f ≤ 1 := by linarith
    calc (c : ℚ) * (1 - f) ≤ (c : ℚ) * 1 := by
          exact mul_le_mul_of_nonneg_left h3 (by positivity)
      _ = (c : ℚ) := mul_one _
  have hfloor : ⌊(c : ℚ) * (1 - f) + 1 / 2⌋ ≤ ⌊(c : ℚ) + 1 / 2⌋ :=
    Int.floor_le_floor (by linarith)
  have hcast : ((c : ℤ) : ℚ) = (c : ℚ) := by push_cast; rfl
  have hcc : ⌊(c : ℚ) + 1 / 2⌋ = (c : ℤ) := by
    rw [← hcast, Int.floor_int_add, show ⌊(1 / 2 : ℚ)⌋ = 0 by norm_num, Int.add_zero]
  rw [hcc] at hfloor
  omega

/-- Claim C6: `generateOutlines` leaves every pixel's alpha unchanged; an
opaque pixel (alpha ≥ 10) that is 4-adjacent to a near-transparent pixel or
to the raster boundary gets each RGB channel multiplied by `1 - darkenFactor`
and rounded, hence each output channel is at most its input value; every
other pixel is returned unchanged. -/
theorem claim6_outline_darkening (img : ImageData) (f : ℚ) (h0 : 0 < f) (h1 : f < 1)
    (hwf : wellFormed img) (i : ℕ) (hi : i < img.data.length) :
    ((generateOutlines img f).data.getD i px0).a = (img.data.getD i px0).a ∧
    (10 ≤ (img.data.getD i px0).a → isEdge img (i % img.width) (i / img.width) = true →
      ((generateOutlines img f).data.getD i px0).r = darken (img.data.getD i px0).r f ∧
      ((generateOutlines img f).data.getD i px0).g = darken (img.data.getD i px0).g f ∧
      ((generateOutlines img f).data.getD i px0).b = darken (img.data.getD i px0).b f ∧
      ((generateOutlines img f).data.getD i px0).r ≤ (img.data.getD i px0).r ∧
      ((generateOutlines img f).data.getD i px0).g ≤ (img.data.getD i px0).g ∧
      ((generateOutlines img f).data.getD i px0).b ≤ (img.data.getD i px0).b) ∧
    ((img.data.getD i px0).a < 10 ∨ isEdge img (i % img.width) (i / img.width) = false →
      (generateOutlines img f).data.getD i px0 = img.data.getD i px0) := by
  have hwh : i < img.width * img.height := hwf ▸ hi
  rw [generateOutlines_getD img f i hwh]
  unfold outlinePixel
  rw [getPx_index img i]
  by_cases ha : (img.data.getD i px0).a < 10
  · rw [if_pos ha]
    exact ⟨rfl, fun hop _ => absurd ha (by omega), fun _ => rfl⟩
  · rw [if_neg ha]
    by_cases he : isEdge img (i % img.width) (i / img.width) = true
    · rw [if_pos he]
      refine ⟨rfl, ?_, ?_⟩
      · intro _ _
        exact ⟨rfl, rfl, rfl, darken_le _ f h0 h1, darken_le _ f h0 h1, darken_le _ f h0 h1⟩
      · intro hcase
        rcases hcase with hcase | hcase
        · omega
        · rw [he] at hcase
          cases hcase
    · rw [if_neg he]
      exact ⟨rfl, fun _ hedge => absurd hedge he, fun _ => rfl⟩

/-- Witness for C6 on a concrete 1×1 raster (its only pixel touches the
boundary, so it is an edge pixel). -/
theorem claim6_outline_darkening_witness :
    ((0 : ℚ) < 1 / 2 ∧ (1 : ℚ) / 2 < 1 ∧ wellFormed oneImg ∧ 0 < oneImg.data.length) ∧
    (((generateOutlines oneImg (1 / 2)).data.getD 0 px0).a = (oneImg.data.getD 0 px0).a ∧
      (10 ≤ (oneImg.data.getD 0 px0).a →
        isEdge oneImg (0 % oneImg.width) (0 / oneImg.width) = true →
        ((generateOutlines oneImg (1 / 2)).data.getD 0 px0).r =
          darken (oneImg.data.getD 0 px0).r (1 / 2) ∧
        ((generateOutlines oneImg (1 / 2)).data.getD 0 px0).g =
          darken (oneImg.data.getD 0 px0).g (1 / 2) ∧
        ((generateOutlines oneImg (1 / 2)).data.getD 0 px0).b =
          darken (oneImg.data.getD 0 px0).b (1 / 2) ∧
        ((generateOutlines oneImg (1 / 2)).data.getD 0 px0).r ≤ (oneImg.data.getD 0 px0).r ∧
        ((generateOutlines oneImg (1 / 2)).data.getD 0 px0).g ≤ (oneImg.data.getD 0 px0).g ∧
        ((generateOutlines oneImg (1 / 2)).data.getD 0 px0).b ≤ (oneImg.data.getD 0 px0).b) ∧
      ((oneImg.data.getD 0 px0).a < 10 ∨
          isEdge oneImg (0 % oneImg.width) (0 / oneImg.width) = false →
        (generateOutlines oneImg (1 / 2)).data.getD 0 px0 = oneImg.data.getD 0 px0)) :=
  ⟨⟨one_half_pos, one_half_lt_one, rfl, Nat.zero_lt_one⟩,
    claim6_outline_darkening oneImg (1 / 2) one_half_pos one_half_lt_one rfl 0 Nat.zero_lt_one⟩

/-- When every neighbour is near-transparent the replacement scan keeps the
starting color. -/
theorem orphanScan_transparent (l : List Pixel) : ∀ (cnt : Color → ℕ) (m : ℕ) (best : Color),
    (∀ q ∈ l, q.a < 10) → orphanScan l cnt m best = best := by
  induction l with
  | nil =>
    intro cnt m best _
    rfl
  | cons q rest ih =>
    intro cnt m best h
    unfold orphanScan
    rw [if_pos (h q (List.mem_cons_self q rest))]
    exact ih _ _ _ fun r hr => h r (List.mem_cons_of_mem q hr)

/-- Reading `cleanupOrphans` output by flat index. -/
theorem cleanupOrphans_getD (img : ImageData) (threshold i : ℕ)
    (hwh : i < img.width * img.height) :
    (cleanupOrphans img threshold).data.getD i px0 =
      cleanupPixel img threshold (i % img.width) (i / img.width) := by
  show (((List.range (img.width * img.height)).map fun j =>
    cleanupPixel img threshold (j % img.width) (j / img.width)).getD i px0) = _
  exact range_map_getD _ _ _ hwh px0

/-- Claim C9: in `cleanupOrphans`, an interior opaque pixel classified as an
orphan (zero color-matching 8-neighbours) all of whose 8 neighbours are
near-transparent keeps its own pixel value: the replacement search skips
transparent neighbours and the best color starts as the pixel's own RGB. -/
theorem claim9_orphan_keep (img : ImageData) (threshold x y : ℕ)
    (hx0 : x ≠ 0) (hy0 : y ≠ 0) (hx1 : x + 1 < img.width) (hy1 : y + 1 < img.height)
    (ha : 10 ≤ (getPx img x y).a)
    (horphan : matchCount img threshold x y = 0)
    (htrans : ∀ q ∈ nbrs img x y, q.a < 10) :
    (cleanupOrphans img threshold).data.getD (y * img.width + x) px0 = getPx img x y := by
  have hx : x < img.width := by omega
  have hy : y < img.height := by omega
  have hidx : y * img.width + x < img.width * img.height :=
    coord_index_lt img.width img.height x y hx hy
  rw [cleanupOrphans_getD _ _ _ hidx, index_mod _ _ _ hx, index_div _ _ _ hx]
  unfold cleanupPixel
  rw [if_neg (by omega), if_neg (by omega), if_pos horphan,
    orphanScan_transparent (nbrs img x y) _ _ _ htrans]
  rfl

/-- Witness for C9 on the concrete 3×3 fixture. -/
theorem claim9_orphan_keep_witness :
    ((1 : ℕ) ≠ 0 ∧ 1 + 1 < orphanImg.width ∧ 1 + 1 < orphanImg.height ∧
      10 ≤ (getPx orphanImg 1 1).a ∧ matchCount orphanImg 3 1 1 = 0 ∧
      ∀ q ∈ nbrs orphanImg 1 1, q.a < 10) ∧
    (cleanupOrphans orphanImg 3).data.getD (1 * orphanImg.width + 1) px0 = getPx orphanImg 1 1 :=
  ⟨⟨by decide, by decide, by decide, by decide, by decide, by decide⟩,
    claim9_orphan_keep orphanImg 3 1 1 (by decide) (by decide) (by decide) (by decide)
      (by decide) (by decide) (by decide)⟩

/-- Claim C7 (amended): the pipeline raises an error for an unknown console
id and for an unknown sprite-size key, but it does not reject unrecognized
strategy names: any pipeline string other than "enhanced" is silently
processed exactly like the classic pipeline, and in the enhanced pipeline
any dithering value other than "bayer" is silently processed like no
dithering at all. -/
theorem claim7_strategy_fallback (consoles : String → Option ConsoleConfig)
    (img : ImageData) (o : PipelineOptions) :
    (consoles o.consoleId = none →
      processImage consoles img o = .error ("Unknown console: " ++ o.consoleId)) ∧
    (∀ cfg, consoles o.consoleId = some cfg →
      cfg.spriteSizes (o.spriteSize.getD cfg.defaultSize) = none →
      processImage consoles img o = .error
        ("Unknown sprite size " ++ o.spriteSize.getD cfg.defaultSize ++ " for " ++ cfg.name)) ∧
    (o.pipeline ≠ "enhanced" →
      processImage consoles img o = processImage consoles img
        ⟨o.consoleId, o.spriteSize, o.dithering, "classic",
          o.outlines, o.cleanup, o.ditherStrength⟩) ∧
    (o.pipeline = "enhanced" → o.dithering ≠ some "bayer" →
      processImage consoles img o = processImage consoles img
        ⟨o.consoleId, o.spriteSize, none, o.pipeline,
          o.outlines, o.cleanup, o.ditherStrength⟩) := by
  refine ⟨?_, ?_, ?_, ?_⟩
  · intro h
    unfold processImage
    rw [h]
  · intro cfg hc hs
    unfold processImage
    rw [hc]
    simp only [hs]
  · intro hp
    unfold processImage
    cases hcs : consoles o.consoleId with
    | none => rfl
    | some cfg =>
      simp only []
      cases hsz : cfg.spriteSizes (o.spriteSize.getD cfg.defaultSize) with
      | none => rfl
      | some size =>
        by_cases hdim : img.width = 0 ∨ img.height = 0
        · simp [hdim]
        · simp [hdim, hp]
  · intro hp hd
    unfold processImage
    cases hcs : consoles o.consoleId with
    | none => rfl
    | some cfg =>
      simp only []
      cases hsz : cfg.spriteSizes (o.spriteSize.getD cfg.defaultSize) with
      | none => rfl
      | some size =>
        by_cases hdim : img.width = 0 ∨ img.height = 0
        · simp [hdim]
        · simp [hdim, hp, hd]

/-- Witness for the amended C7: concrete unknown-console error and concrete
silent classic fallback. -/
theorem claim7_strategy_fallback_witness :
    (testConsoles optsBogus.consoleId ≠ none ∧ optsBogus.pipeline ≠ "enhanced") ∧
    processImage testConsoles oneImg optsBogus = processImage testConsoles oneImg
      ⟨optsBogus.consoleId, optsBogus.spriteSize, optsBogus.dithering, "classic",
        optsBogus.outlines, optsBogus.cleanup, optsBogus.ditherStrength⟩ :=
  ⟨⟨fun h => Option.noConfusion h, by decide⟩,
    (claim7_strategy_fallback testConsoles oneImg optsBogus).2.2.1 (by decide)⟩

/-- Counterexample to C7 as stated: options naming the unknown pipeline
strategy "bogus-strategy" do not raise an error — processing completes and
returns exactly the classic-strategy result. -/
theorem claim7_counterexample :
    (processImage testConsoles oneImg optsBogus).isOk = true ∧
    processImage testConsoles oneImg optsBogus =
      processImage testConsoles oneImg optsClassic := by
  constructor
  · rfl
  · rfl

/-- Claim C10: neither `processImage` nor `processSpriteSheet` reads the
`ditherStrength` option, and in the enhanced pipeline with Bayer dithering
the quantization step is `quantizeOklabBayer` at the constant default
strength 0.3; hence two runs differing only in `ditherStrength` produce
identical results. -/
theorem claim10_dither_strength_ignored (consoles : String → Option ConsoleConfig)
    (img : ImageData) (frameCount : ℕ) (o : PipelineOptions) (s : ℝ) :
    (processImage consoles img
        ⟨o.consoleId, o.spriteSize, o.dithering, o.pipeline, o.outlines, o.cleanup, s⟩ =
      processImage consoles img o) ∧
    (processSpriteSheet consoles img frameCount
        ⟨o.consoleId, o.spriteSize, o.dithering, o.pipeline, o.outlines, o.cleanup, s⟩ =
      processSpriteSheet consoles img frameCount o) ∧
    (∀ cfg size, consoles o.consoleId = some cfg →
      cfg.spriteSizes (o.spriteSize.getD cfg.defaultSize) = some size →
      cfg.quantizeMode ≠ "bitreduce" → o.pipeline = "enhanced" →
      o.dithering = some "bayer" → ¬(img.width = 0 ∨ img.height = 0) →
      processImage consoles img o = Except.ok
        ⟨enhancedPost (quantizeOklabBayer (downscaleMode img size.w size.h) cfg.palette 0.3)
          o.cleanup o.outlines, size.w, size.h⟩) := by
  refine ⟨rfl, rfl, ?_⟩
  intro cfg size hc hs hq hp hd hdim
  unfold processImage
  rw [hc]
  simp only [hs]
  simp [hdim, hp, hd, hq, enhancedPost]

/-- Witness for C10 on a concrete console, raster and option set. -/
theorem claim10_dither_strength_ignored_witness :
    (testConsoles optsBayer.consoleId = some testConsole ∧
      testConsole.spriteSizes (optsBayer.spriteSize.getD testConsole.defaultSize) =
        some ⟨1, 1⟩ ∧
      testConsole.quantizeMode ≠ "bitreduce" ∧ optsBayer.pipeline = "enhanced" ∧
      optsBayer.dithering = some "bayer" ∧ ¬(oneImg.width = 0 ∨ oneImg.height = 0)) ∧
    (processImage testConsoles oneImg
        ⟨optsBayer.consoleId, optsBayer.spriteSize, optsBayer.dithering, optsBayer.pipeline,
          optsBayer.outlines, optsBayer.cleanup, 5⟩ =
      processImage testConsoles oneImg optsBayer) ∧
    (processSpriteSheet testConsoles oneImg 1
        ⟨optsBayer.consoleId, optsBayer.spriteSize, optsBayer.dithering, optsBayer.pipeline,
          optsBayer.outlines, optsBayer.cleanup, 5⟩ =
      processSpriteSheet testConsoles oneImg 1 optsBayer) ∧
    processImage testConsoles oneImg optsBayer = Except.ok
      ⟨enhancedPost (quantizeOklabBayer (downscaleMode oneImg 1 1) testConsole.palette 0.3)
        optsBayer.cleanup optsBayer.outlines, 1, 1⟩ :=
  ⟨⟨rfl, rfl, by decide, rfl, rfl, by decide⟩,
    (claim10_dither_strength_ignored testConsoles oneImg 1 optsBayer 5).1,
    (claim10_dither_strength_ignored testConsoles oneImg 1 optsBayer 5).2.1,
    (claim10_dither_strength_ignored testConsoles oneImg 1 optsBayer 5).2.2 testConsole ⟨1, 1⟩
      rfl rfl (by decide) rfl rfl (by decide)⟩

/-- Counterexample to C8 as stated: upscaling the 1×1 raster `oneImg` to
2×2, the (0,0) output cell covers zero whole source pixels and both
strategies emit the transparent black pixel (0,0,0,0), which is not the
value of any source pixel — not nearest-pixel sampling. -/
theorem claim8_counterexample :
    (oneImg.width < 2 ∨ oneImg.height < 2) ∧
    (downscaleMode oneImg 2 2).data.getD 0 px0 = ⟨0, 0, 0, 0⟩ ∧
    (downscaleAverage oneImg 2 2).data.getD 0 px0 = ⟨0, 0, 0, 0⟩ ∧
    (⟨0, 0, 0, 0⟩ : Pixel) ∉ oneImg.data := by
  decide
